import Mathlib

/-!
Shallow embedding of goBili's media-resolution pipeline: the `parser`
package's data model and stream-selection logic, the `auth` package's
cookie-string parsing, and the download command's page-range selection.
Network I/O is abstracted: the pure conversion from a decoded API
response to the returned values is embedded directly, and where a
function performs a further network call the embedding takes that call
as an explicit function argument.
-/

/-- Embeds `parser.StreamInfo` (one playable rendition). The Go field
`Quality` is `int`; it is modelled as `Int`. -/
structure StreamInfo where
  Quality : Int
  Format : String
  VideoURL : String
  AudioURL : String
  VideoCodecs : String
  AudioCodecs : String
  Bandwidth : Int
  Resolution : String
  deriving DecidableEq, Repr, Inhabited

/-- Embeds `parser.PageInfo` (one page of a multi-page video). -/
structure PageInfo where
  CID : Int
  Part : String
  Title : String
  Duration : Int
  Page : Int
  deriving DecidableEq, Repr, Inhabited

/-- Embeds `parser.EpisodeInfo` (one episode / sub-item). -/
structure EpisodeInfo where
  BVID : String
  CID : Int
  Title : String
  Duration : Int
  Index : Int
  deriving DecidableEq, Repr, Inhabited

/-- Embeds `parser.VideoInfo`. The Go field `Type` is modelled as `typ`
(`Type` is reserved in Lean). -/
structure VideoInfo where
  BVID : String
  AID : Int
  Title : String
  Desc : String
  Duration : Int
  typ : String
  Episodes : List EpisodeInfo
  Pages : List PageInfo
  deriving DecidableEq, Repr, Inhabited

/-- Embeds the episode built for page `page` in `parseVideoURL`'s
pages-to-episodes loop (part_000 lines 139-152): the title prefers the
source part title and falls back to `"<title> - P<page>"`; the index is
the page's own `Page` field. -/
def episodeFromPage (v : VideoInfo) (page : PageInfo) : EpisodeInfo :=
  let episodeTitle := if page.Part = "" then v.Title ++ " - P" ++ toString page.Page else page.Part
  { BVID := v.BVID, CID := page.CID, Title := episodeTitle,
    Duration := page.Duration, Index := page.Page }

/-- Embeds the classification step of `parseVideoURL` (part_000 lines
134-156): a video whose page list has more than one entry is upgraded to
type "playlist" with one episode per page; otherwise type is "video". -/
def classifyVideo (v : VideoInfo) : VideoInfo :=
  if 1 < v.Pages.length then
    { v with typ := "playlist", Episodes := v.Pages.map (episodeFromPage v) }
  else
    { v with typ := "video" }

/-- One entry of the modern playback response's `dash.video` list. -/
structure DashVideo where
  id : Int
  baseUrl : String
  bandwidth : Int
  codecs : String
  width : Int
  height : Int
  deriving DecidableEq, Repr, Inhabited

/-- One entry of the modern playback response's `dash.audio` list. -/
structure DashAudio where
  id : Int
  baseUrl : String
  codecs : String
  deriving DecidableEq, Repr, Inhabited

/-- The decoded `data.dash` payload of a modern playback response. -/
structure PlayurlData where
  video : List DashVideo
  audio : List DashAudio
  deriving DecidableEq, Repr, Inhabited

/-- One entry of the legacy playback response's `durl` list. -/
structure DurlEntry where
  url : String
  size : Int
  length : Int
  deriving DecidableEq, Repr, Inhabited

/-- The decoded `data` payload of a legacy playback response. -/
structure LegacyData where
  durl : List DurlEntry
  quality : Int
  deriving DecidableEq, Repr, Inhabited

/-- Embeds the `qualityMap` lookup in `getVideoStreamsByCID` (part_000
lines 394-399): the recognized quality identifiers map to themselves,
anything else is absent. -/
def qualityMap (id : Int) : Option Int :=
  if id = 80 then some 80
  else if id = 64 then some 64
  else if id = 32 then some 32
  else if id = 16 then some 16
  else none

/-- Embeds the video-rendition loop of `getVideoStreamsByCID` (part_000
lines 401-431): each rendition with a recognized quality id yields one
`StreamInfo`, paired with the first audio rendition when one exists;
unrecognized ids are skipped (`continue`). -/
def streamsFromDash (d : PlayurlData) : List StreamInfo :=
  d.video.filterMap (fun v =>
    match qualityMap v.id with
    | none => none
    | some q => some
      { Quality := q
        Format := "mp4"
        VideoURL := v.baseUrl
        AudioURL := (match d.audio with | [] => "" | a :: _ => a.baseUrl)
        VideoCodecs := v.codecs
        AudioCodecs := (match d.audio with | [] => "" | a :: _ => a.codecs)
        Bandwidth := v.bandwidth
        Resolution := toString v.width ++ "x" ++ toString v.height })

/-- Embeds the `durl` loop of `getLegacyVideoStreams` (part_000 lines
481-494): one `StreamInfo` per `durl` entry, each carrying the
response's `quality` field verbatim, legacy container and fixed
codecs. -/
def streamsFromLegacy (d : LegacyData) : List StreamInfo :=
  d.durl.map (fun u =>
    { Quality := d.quality
      Format := "flv"
      VideoURL := u.url
      AudioURL := ""
      VideoCodecs := "avc1"
      AudioCodecs := "mp4a"
      Bandwidth := 0
      Resolution := "unknown" })

/-- Embeds the modern-then-legacy probe of `getVideoStreamsByCID`
(part_000 lines 433-438): when zero modern streams result, the decoded
legacy response is used instead. Both decoded payloads are taken as
arguments; the network fetches themselves are outside the embedding. -/
def resolveVariants (modern : PlayurlData) (legacy : LegacyData) : List StreamInfo :=
  let streams := streamsFromDash modern
  if streams.length = 0 then streamsFromLegacy legacy else streams

/-- The fold step of `GetBestQualityStream`'s loop: keep the incumbent
unless the candidate's quality is strictly greater. -/
def bestFold (best : StreamInfo) (rest : List StreamInfo) : StreamInfo :=
  rest.foldl (fun b s => if s.Quality > b.Quality then s else b) best

/-- Embeds `GetBestQualityStream` (part_000 lines 500-513): `none` on an
empty list, else the first stream of maximal quality. -/
def GetBestQualityStream : List StreamInfo → Option StreamInfo
  | [] => none
  | s :: rest => some (bestFold s rest)

/-- Embeds the label table of `GetStreamByQuality` (part_000 lines
517-523). -/
def qualityLabelMap : String → Option Int
  | "best" => some 80
  | "1080p" => some 80
  | "720p" => some 64
  | "480p" => some 32
  | "360p" => some 16
  | _ => none

/-- Embeds `GetStreamByQuality` (part_000 lines 516-538): an unknown
label falls back to the best pick; a known label returns the first
stream with the target quality, or the best pick when none matches. -/
def GetStreamByQuality (streams : List StreamInfo) (quality : String) : Option StreamInfo :=
  match qualityLabelMap quality with
  | none => GetBestQualityStream streams
  | some targetQuality =>
    match streams.find? (fun s => s.Quality == targetQuality) with
    | some s => some s
    | none => GetBestQualityStream streams

/-- Embeds `GetVideoStreamsForPage` (part_000 lines 312-330). The
trailing call to `getVideoStreamsByCID` is a network fetch and is taken
as the argument `fetchByCID` (bvid and cid to streams-or-error); the
embedded part is the page-to-cid selection: in-range page numbers pick
that page's cid, out-of-range page numbers fall back to the first
page's cid, and an empty page list is the only error of this step. -/
def GetVideoStreamsForPage (v : VideoInfo) (pageNum : Int)
    (fetchByCID : String → Int → Except String (List StreamInfo)) :
    Except String (List StreamInfo) :=
  match v.Pages with
  | [] => Except.error "no pages found for video"
  | p :: ps =>
    let cid :=
      if 0 < pageNum && pageNum ≤ ((p :: ps).length : Int) then
        (((p :: ps).get? (pageNum - 1).toNat).getD p).CID
      else
        p.CID
    fetchByCID v.BVID cid

/-- Splits a character list at every occurrence of `sep`, keeping empty
segments — the behavior of Go `strings.Split` with a one-character
separator. -/
def splitOnChar (sep : Char) : List Char → List (List Char)
  | [] => [[]]
  | c :: cs =>
    if c = sep then [] :: splitOnChar sep cs
    else
      match splitOnChar sep cs with
      | [] => [[c]]
      | g :: gs => (c :: g) :: gs

/-- Go `strings.Split(s, sep)` for a one-character separator. -/
def goSplit (s : String) (sep : Char) : List String :=
  (splitOnChar sep s.data).map (fun l => ⟨l⟩)

/-- Drops leading and trailing whitespace characters. -/
def trimCharList (l : List Char) : List Char :=
  ((l.dropWhile Char.isWhitespace).reverse.dropWhile Char.isWhitespace).reverse

/-- Go `strings.TrimSpace`. -/
def goTrim (s : String) : String :=
  ⟨trimCharList s.data⟩

/-- Splits at the first occurrence of `sep`; `none` when `sep` is absent
— the behavior of Go `strings.SplitN(s, sep, 2)`, whose result has two
parts exactly when `sep` occurs. -/
def splitFirst (sep : Char) : List Char → Option (List Char × List Char)
  | [] => none
  | c :: cs =>
    if c = sep then some ([], cs)
    else
      match splitFirst sep cs with
      | none => none
      | some (a, b) => some (c :: a, b)

/-- Go map assignment `m[k] = v` on an association-list model of
`map[string]string`: replace the existing binding or append a new
one. -/
def mapSet (m : List (String × String)) (k v : String) : List (String × String) :=
  match m with
  | [] => [(k, v)]
  | (k0, v0) :: rest => if k0 = k then (k, v) :: rest else (k0, v0) :: mapSet rest k v

/-- Embeds `auth.SetCookiesFromString` (auth.go lines 128-146): split on
`;`, trim each segment, skip empty segments and segments without `=`,
and set the trimmed name to the trimmed value. The Go function's only
`return` is `return nil`, embedded as always `Except.ok`. -/
def SetCookiesFromString (cookies : List (String × String)) (cookieStr : String) :
    Except String (List (String × String)) :=
  Except.ok ((goSplit cookieStr ';').foldl (fun m cookie =>
    let c := goTrim cookie
    if c = "" then m
    else
      match splitFirst '=' c.data with
      | none => m
      | some (name, value) => mapSet m (goTrim ⟨name⟩) (goTrim ⟨value⟩)) cookies)

/-- Embeds `cmd.parseInt` (logout.go lines 331-335), i.e.
`fmt.Sscanf(s, "%d", ...)`: skip leading whitespace, accept an optional
sign followed by at least one digit, ignore what follows; error when no
digit is found. -/
def parseIntGo (s : String) : Except String Int :=
  let l := s.data.dropWhile Char.isWhitespace
  let signed : Bool × List Char :=
    match l with
    | '-' :: rest => (true, rest)
    | '+' :: rest => (false, rest)
    | _ => (false, l)
  let ds := signed.2.takeWhile Char.isDigit
  if ds.isEmpty then Except.error "parse error"
  else
    let n : Nat := ds.foldl (fun acc c => acc * 10 + (c.toNat - 48)) 0
    Except.ok (if signed.1 then -(n : Int) else (n : Int))

/-- The list `[start, start+1, ..., stop]` built by the Go loop
`for i := start; i <= stop; i++`. -/
def rangeInts (start stop : Int) : List Int :=
  (List.range (stop + 1 - start).toNat).map (fun i => start + (i : Int))

/-- Embeds the per-part branch of `cmd.parsePageRange` (logout.go lines
291-325): a trimmed part containing `-` must split into exactly two
parseable endpoints with start ≤ end and expands to the inclusive
range; any other part must parse as a single page number. -/
def parsePartGo (part : String) : Except String (List Int) :=
  let p := goTrim part
  if p.data.contains '-' then
    match goSplit p '-' with
    | [a, b] =>
      match parseIntGo a with
      | Except.error _ => Except.error ("invalid start page: " ++ a)
      | Except.ok start =>
        match parseIntGo b with
        | Except.error _ => Except.error ("invalid end page: " ++ b)
        | Except.ok stop =>
          if start > stop then
            Except.error "start page cannot be greater than end page"
          else
            Except.ok (rangeInts start stop)
    | _ => Except.error ("invalid range format: " ++ p.1.asString)
  else
    match parseIntGo p with
    | Except.error _ => Except.error ("invalid page number: " ++ p.1.asString)
    | Except.ok page => Except.ok [page]

/-- Concatenates the expansions of the comma-separated parts,
propagating the first error — the accumulation of `parsePageRange`'s
outer loop. -/
def parsePartsGo : List String → Except String (List Int)
  | [] => Except.ok []
  | p :: ps =>
    match parsePartGo p with
    | Except.error e => Except.error e
    | Except.ok is =>
      match parsePartsGo ps with
      | Except.error e => Except.error e
      | Except.ok rest => Except.ok (is ++ rest)

/-- Embeds `cmd.parsePageRange` (logout.go lines 286-329). The second
argument embeds the Go parameter `maxPages`, which the function body
never reads. -/
def parsePageRange (pages : String) (maxPages : Int) : Except String (List Int) :=
  parsePartsGo (goSplit pages ',')

/-- The body of `downloadPlaylist`'s index-selection loop (logout.go
lines 249-254): append the episode at 1-based index `idx` when `idx` is
in range, otherwise keep the accumulator unchanged. -/
def selectStep (episodes : List EpisodeInfo) (acc : List EpisodeInfo) (idx : Int) :
    List EpisodeInfo :=
  if 0 < idx && idx ≤ (episodes.length : Int) then
    match episodes.get? (idx - 1).toNat with
    | some e => acc ++ [e]
    | none => acc
  else acc

/-- Embeds `downloadPlaylist`'s selection of episodes from the parsed
index list (logout.go lines 249-254). -/
def selectEpisodes (episodes : List EpisodeInfo) (indices : List Int) : List EpisodeInfo :=
  indices.foldl (selectStep episodes) []

/-- Executable form of "the page list is numbered sequentially starting
at `n`". -/
def pagesNumberedFrom : Int → List PageInfo → Bool
  | _, [] => true
  | n, p :: ps => p.Page == n && pagesNumberedFrom (n + 1) ps

/-- A valid item-metadata response numbers its pages 1..N in order
(spec §6: the platform's metadata contract carries a 1-based `page`
field per page). -/
def pagesNumbered (pages : List PageInfo) : Bool :=
  pagesNumberedFrom 1 pages

/-- The closed quality-tier vocabulary of the spec's data model:
16=360p, 32=480p, 64=720p, 80=1080p. -/
def isValidTier (q : Int) : Bool :=
  q == 16 || q == 32 || q == 64 || q == 80

/-! ## Helper lemmas -/

lemma validTier_le_80 (q : Int) (h : isValidTier q = true) : q ≤ 80 := by
  simp only [isValidTier, Bool.or_eq_true, beq_iff_eq] at h
  rcases h with h | h | h | h <;> omega

lemma qualityMap_valid (id q : Int) (h : qualityMap id = some q) : isValidTier q = true := by
  unfold qualityMap at h
  split_ifs at h <;> simp_all [isValidTier]

lemma mem_streamsFromDash_valid (d : PlayurlData) (s : StreamInfo)
    (h : s ∈ streamsFromDash d) : isValidTier s.Quality = true := by
  simp only [streamsFromDash, List.mem_filterMap] at h
  obtain ⟨v, -, hv⟩ := h
  cases hq : qualityMap v.id with
  | none => rw [hq] at hv; exact absurd hv (by simp)
  | some q =>
    rw [hq] at hv
    simp only [Option.some.injEq] at hv
    rw [← hv]
    exact qualityMap_valid v.id q hq

lemma mem_streamsFromLegacy_quality (d : LegacyData) (s : StreamInfo)
    (h : s ∈ streamsFromLegacy d) : s.Quality = d.quality := by
  simp only [streamsFromLegacy, List.mem_map] at h
  obtain ⟨u, -, rfl⟩ := h
  rfl

lemma bestFold_eq_self (b : StreamInfo) (l : List StreamInfo)
    (h : ∀ s ∈ l, s.Quality ≤ b.Quality) : bestFold b l = b := by
  induction l with
  | nil => rfl
  | cons x xs ih =>
    have hx := h x (List.mem_cons_self x xs)
    show List.foldl _ (if x.Quality > b.Quality then x else b) xs = b
    rw [if_neg (by omega)]
    exact ih (fun s hs => h s (List.mem_cons_of_mem x hs))

lemma bestFold_mem (l : List StreamInfo) :
    ∀ b : StreamInfo, bestFold b l = b ∨ bestFold b l ∈ l := by
  induction l with
  | nil => exact fun b => Or.inl rfl
  | cons x xs ih =>
    intro b
    have h : bestFold b (x :: xs) = bestFold (if x.Quality > b.Quality then x else b) xs := rfl
    rw [h]
    rcases ih (if x.Quality > b.Quality then x else b) with h1 | h1
    · rw [h1]
      split
      · exact Or.inr (List.mem_cons_self x xs)
      · exact Or.inl rfl
    · exact Or.inr (List.mem_cons_of_mem x h1)

lemma bestFold_first_max (M : Int) (l : List StreamInfo) :
    ∀ b : StreamInfo, (∀ s ∈ l, s.Quality ≤ M) → b.Quality < M →
    ∀ x, l.find? (fun s => s.Quality == M) = some x → bestFold b l = x := by
  induction l with
  | nil => intro b _ _ x hx; cases hx
  | cons y ys ih =>
    intro b hall hb x hx
    by_cases hy : y.Quality = M
    · rw [List.find?_cons_of_pos _ (by simp [hy])] at hx
      injection hx with hx
      subst hx
      show bestFold (if y.Quality > b.Quality then y else b) ys = y
      rw [if_pos (by omega)]
      exact bestFold_eq_self y ys
        (fun s hs => by rw [hy]; exact hall s (List.mem_cons_of_mem y hs))
    · rw [List.find?_cons_of_neg _ (by simp [hy])] at hx
      have hylt : y.Quality < M :=
        lt_of_le_of_ne (hall y (List.mem_cons_self y ys)) hy
      show bestFold (if y.Quality > b.Quality then y else b) ys = x
      refine ih _ (fun s hs => hall s (List.mem_cons_of_mem y hs)) ?_ x hx
      split <;> omega

lemma getBest_first_max (l : List StreamInfo) (M : Int) (x : StreamInfo)
    (hall : ∀ s ∈ l, s.Quality ≤ M)
    (hx : l.find? (fun s => s.Quality == M) = some x) :
    GetBestQualityStream l = some x := by
  cases l with
  | nil => cases hx
  | cons h t =>
    by_cases hh : h.Quality = M
    · rw [List.find?_cons_of_pos _ (by simp [hh])] at hx
      injection hx with hx
      subst hx
      show some (bestFold h t) = some h
      rw [bestFold_eq_self h t
        (fun s hs => by rw [hh]; exact hall s (List.mem_cons_of_mem h hs))]
    · rw [List.find?_cons_of_neg _ (by simp [hh])] at hx
      have hlt : h.Quality < M :=
        lt_of_le_of_ne (hall h (List.mem_cons_self h t)) hh
      show some (bestFold h t) = some x
      rw [bestFold_first_max M t h
        (fun s hs => hall s (List.mem_cons_of_mem h hs)) hlt x hx]

lemma getBest_mem (l : List StreamInfo) (hne : l ≠ []) :
    ∃ s, GetBestQualityStream l = some s ∧ s ∈ l := by
  cases l with
  | nil => exact absurd rfl hne
  | cons h t =>
    refine ⟨bestFold h t, rfl, ?_⟩
    rcases bestFold_mem t h with h1 | h1
    · rw [h1]; exact List.mem_cons_self h t
    · exact List.mem_cons_of_mem h h1

lemma pagesNumberedFrom_getElem? (l : List PageInfo) :
    ∀ (n : Int), pagesNumberedFrom n l = true →
    ∀ (i : Nat) (p : PageInfo), l[i]? = some p → p.Page = n + (i : Int) := by
  induction l with
  | nil => intro n _ i p hp; cases hp
  | cons q qs ih =>
    intro n hn i p hp
    unfold pagesNumberedFrom at hn
    rw [Bool.and_eq_true, beq_iff_eq] at hn
    obtain ⟨h1, h2⟩ := hn
    cases i with
    | zero =>
      simp only [List.getElem?_cons_zero, Option.some.injEq] at hp
      rw [← hp, h1]
      simp
    | succ j =>
      rw [List.getElem?_cons_succ] at hp
      have := ih (n + 1) h2 j p hp
      rw [this]
      push_cast
      ring

/-! ## Concrete inputs used by counterexamples and witnesses -/

/-- A modern playback payload whose video list carries two renditions
with the same recognized quality id 80. -/
def dupQualityDash : PlayurlData :=
  { video := [⟨80, "u1", 100, "avc1", 1920, 1080⟩, ⟨80, "u2", 90, "avc1", 1920, 1080⟩],
    audio := [⟨30280, "a1", "mp4a"⟩] }

/-- A modern playback payload with no video renditions (forces the
legacy fallback). -/
def emptyDash : PlayurlData :=
  { video := [], audio := [] }

/-- A legacy playback payload reporting quality 74, outside the closed
tier vocabulary. -/
def legacy74 : LegacyData :=
  { durl := [⟨"u-legacy", 1000, 60⟩], quality := 74 }

/-- The single stream built from `legacy74`. -/
def legacyStream74 : StreamInfo :=
  ⟨74, "flv", "u-legacy", "", "avc1", "mp4a", 0, "unknown"⟩

/-- A 1080p stream variant. -/
def st80 : StreamInfo := ⟨80, "mp4", "v80", "a", "avc1", "mp4a", 200, "1920x1080"⟩

/-- A 720p stream variant. -/
def st64 : StreamInfo := ⟨64, "mp4", "v64", "a", "avc1", "mp4a", 100, "1280x720"⟩

/-! ## Claim theorems -/

/-- Claim C1, counterexample: on a playback payload carrying two video
renditions with the same recognized quality id 80, the conversion of
`getVideoStreamsByCID` retains both, so the returned list does not have
at most one variant per quality tier. -/
theorem streamsFromDash_duplicate_tier_cex :
    ¬ ((streamsFromDash dupQualityDash).countP (fun s => s.Quality == 80) ≤ 1) := by
  decide

/-- Claim C1, amended: every video rendition with a recognized quality
id yields one returned variant, in source order — duplicates of the
same tier are all retained, only unrecognized tiers are dropped, and
the conversion is total (never crashes). -/
theorem streamsFromDash_retains_every_recognized (d : PlayurlData) :
    (streamsFromDash d).map (fun s => s.Quality) =
      d.video.filterMap (fun v => qualityMap v.id) := by
  unfold streamsFromDash
  rw [List.map_filterMap]
  congr 1
  funext v
  cases h : qualityMap v.id <;> simp [h]

/-- Claim C2, counterexample: with no modern renditions and a legacy
response reporting quality 74 — outside the closed vocabulary
{16, 32, 64, 80} — stream resolution returns a variant whose quality
tier is 74 rather than dropping it. -/
theorem resolveVariants_legacy_tier_cex :
    ¬ (∀ s ∈ resolveVariants emptyDash legacy74, isValidTier s.Quality = true) := by
  decide

/-- Claim C2, amended: a variant returned by stream resolution either
has a quality tier in the closed vocabulary {16, 32, 64, 80} (always the
case on the modern path, where unrecognized tiers are dropped) or
carries the legacy response's quality field verbatim (the legacy path
performs no vocabulary filtering). -/
theorem resolveVariants_tier_vocab_or_legacy (modern : PlayurlData) (legacy : LegacyData)
    (s : StreamInfo) (hs : s ∈ resolveVariants modern legacy) :
    isValidTier s.Quality = true ∨ s.Quality = legacy.quality := by
  simp only [resolveVariants] at hs
  by_cases hl : (streamsFromDash modern).length = 0
  · rw [if_pos hl] at hs
    exact Or.inr (mem_streamsFromLegacy_quality legacy s hs)
  · rw [if_neg hl] at hs
    exact Or.inl (mem_streamsFromDash_valid modern s hs)

/-- Witness for the amended C2 theorem at a concrete input. -/
theorem resolveVariants_tier_vocab_or_legacy_witness :
    isValidTier legacyStream74.Quality = true ∨ legacyStream74.Quality = legacy74.quality :=
  resolveVariants_tier_vocab_or_legacy emptyDash legacy74 legacyStream74 (by decide)

/-- Claim C4: on every non-empty list of stream variants whose quality
tiers lie in the closed vocabulary {16, 32, 64, 80}, selection by the
label "best" returns the same variant as the best-quality pick (the
first variant of maximal tier). -/
theorem getStreamByQuality_best_label_eq_best (streams : List StreamInfo)
    (hne : streams ≠ [])
    (hvocab : ∀ s ∈ streams, isValidTier s.Quality = true) :
    GetStreamByQuality streams "best" = GetBestQualityStream streams := by
  show (match streams.find? (fun s => s.Quality == (80 : Int)) with
    | some s => some s
    | none => GetBestQualityStream streams) = GetBestQualityStream streams
  cases hf : streams.find? (fun s => s.Quality == (80 : Int)) with
  | none => rfl
  | some x =>
    exact (getBest_first_max streams 80 x
      (fun s hs => validTier_le_80 s.Quality (hvocab s hs)) hf).symm

/-- Witness for C4 at a concrete two-variant list. -/
theorem getStreamByQuality_best_label_eq_best_witness :
    GetStreamByQuality [st64, st80] "best" = GetBestQualityStream [st64, st80] :=
  getStreamByQuality_best_label_eq_best [st64, st80] (by decide) (by decide)

/-- Claim C5: on every non-empty variant list and every label, selection
returns some variant of the list (never none); an unknown label behaves
as the best-quality pick, and a known label whose tier is absent from
the list falls back to the best-quality pick. -/
theorem getStreamByQuality_total_on_nonempty (streams : List StreamInfo) (label : String)
    (hne : streams ≠ []) :
    (∃ s, GetStreamByQuality streams label = some s ∧ s ∈ streams) ∧
    (qualityLabelMap label = none →
      GetStreamByQuality streams label = GetBestQualityStream streams) ∧
    (∀ t, qualityLabelMap label = some t →
      streams.find? (fun s => s.Quality == t) = none →
      GetStreamByQuality streams label = GetBestQualityStream streams) := by
  refine ⟨?_, ?_, ?_⟩
  · unfold GetStreamByQuality
    cases hm : qualityLabelMap label with
    | none => exact getBest_mem streams hne
    | some t =>
      show ∃ s, (match streams.find? (fun s => s.Quality == t) with
        | some s => some s
        | none => GetBestQualityStream streams) = some s ∧ s ∈ streams
      cases hf : streams.find? (fun s => s.Quality == t) with
      | none => exact getBest_mem streams hne
      | some x => exact ⟨x, rfl, List.mem_of_find?_eq_some hf⟩
  · intro hm
    unfold GetStreamByQuality
    rw [hm]
  · intro t hm hf
    unfold GetStreamByQuality
    rw [hm]
    show (match streams.find? (fun s => s.Quality == t) with
      | some s => some s
      | none => GetBestQualityStream streams) = GetBestQualityStream streams
    rw [hf]

/-- Witness for C5 at a concrete list and a label whose tier is absent
from the list. -/
theorem getStreamByQuality_total_on_nonempty_witness :
    (∃ s, GetStreamByQuality [st80] "720p" = some s ∧ s ∈ [st80]) ∧
    (qualityLabelMap "720p" = none →
      GetStreamByQuality [st80] "720p" = GetBestQualityStream [st80]) ∧
    (∀ t, qualityLabelMap "720p" = some t →
      [st80].find? (fun s => s.Quality == t) = none →
      GetStreamByQuality [st80] "720p" = GetBestQualityStream [st80]) :=
  getStreamByQuality_total_on_nonempty [st80] "720p" (by decide)

/-- A two-page video as decoded from a valid item-metadata response:
pages numbered 1 and 2, the first with a source part title, the second
with an empty one. -/
def v3 : VideoInfo :=
  { BVID := "BV1xx", AID := 7, Title := "T", Desc := "", Duration := 10, typ := "",
    Episodes := [], Pages := [⟨100, "intro", "", 5, 1⟩, ⟨101, "", "", 5, 2⟩] }

/-- Claim C3: on every valid item-metadata response (pages numbered
1..N in order) with N > 1 pages, the single-item fetch upgrades the
type to "playlist" and produces exactly N episodes in source order with
1-based indices 1..N. -/
theorem classifyVideo_multipage_collection (v : VideoInfo)
    (hvalid : pagesNumbered v.Pages = true)
    (hN : 1 < v.Pages.length) :
    (classifyVideo v).typ = "playlist" ∧
    (classifyVideo v).Episodes.length = v.Pages.length ∧
    (∀ (i : Nat) (p : PageInfo), v.Pages[i]? = some p →
      (classifyVideo v).Episodes[i]? = some (episodeFromPage v p) ∧
      (episodeFromPage v p).Index = (i : Int) + 1 ∧
      (episodeFromPage v p).CID = p.CID) := by
  unfold classifyVideo
  rw [if_pos hN]
  refine ⟨rfl, by simp, ?_⟩
  intro i p hp
  refine ⟨?_, ?_, rfl⟩
  · show (v.Pages.map (episodeFromPage v))[i]? = some (episodeFromPage v p)
    rw [List.getElem?_map, hp]
    rfl
  · show p.Page = (i : Int) + 1
    rw [pagesNumberedFrom_getElem? v.Pages 1 hvalid i p hp]
    ring

/-- Witness for C3 at a concrete two-page video, instantiated at the
second page. -/
theorem classifyVideo_multipage_collection_witness :
    (classifyVideo v3).typ = "playlist" ∧
    (classifyVideo v3).Episodes.length = v3.Pages.length ∧
    ((classifyVideo v3).Episodes[1]? = some (episodeFromPage v3 ⟨101, "", "", 5, 2⟩) ∧
      (episodeFromPage v3 ⟨101, "", "", 5, 2⟩).Index = ((1 : Nat) : Int) + 1 ∧
      (episodeFromPage v3 ⟨101, "", "", 5, 2⟩).CID = (101 : Int)) := by
  have h := classifyVideo_multipage_collection v3 (by decide) (by decide)
  exact ⟨h.1, h.2.1, h.2.2 1 ⟨101, "", "", 5, 2⟩ (by decide)⟩

/-- Claim C6: for every episode produced from a multi-page video, a
non-empty source part title is used verbatim as the episode title, and
an empty one produces the parent title followed by " - P" and the page
number. -/
theorem classifyVideo_subitem_title (v : VideoInfo)
    (hN : 1 < v.Pages.length)
    (i : Nat) (p : PageInfo) (hp : v.Pages[i]? = some p) :
    (classifyVideo v).Episodes[i]? = some (episodeFromPage v p) ∧
    (p.Part ≠ "" → (episodeFromPage v p).Title = p.Part) ∧
    (p.Part = "" →
      (episodeFromPage v p).Title = v.Title ++ " - P" ++ toString p.Page) := by
  unfold classifyVideo
  rw [if_pos hN]
  refine ⟨?_, ?_, ?_⟩
  · show (v.Pages.map (episodeFromPage v))[i]? = some (episodeFromPage v p)
    rw [List.getElem?_map, hp]
    rfl
  · intro hne
    show (if p.Part = "" then v.Title ++ " - P" ++ toString p.Page else p.Part) = p.Part
    rw [if_neg hne]
  · intro he
    show (if p.Part = "" then v.Title ++ " - P" ++ toString p.Page else p.Part) =
      v.Title ++ " - P" ++ toString p.Page
    rw [if_pos he]

/-- Witness for C6 at a concrete two-page video: the first page has a
non-empty part title, used verbatim. -/
theorem classifyVideo_subitem_title_witness :
    (classifyVideo v3).Episodes[0]? = some (episodeFromPage v3 ⟨100, "intro", "", 5, 1⟩) ∧
    ((100 : Int), "intro", "", (5 : Int), (1 : Int)).2.1 ≠ "" ∧
    (episodeFromPage v3 ⟨100, "intro", "", 5, 1⟩).Title = "intro" := by
  have h := classifyVideo_subitem_title v3 (by decide) 0 ⟨100, "intro", "", 5, 1⟩ (by decide)
  exact ⟨h.1, by decide, h.2.1 (by decide)⟩

/-- Claim C7: parsing the delimited credential string "a=1; b=2 ; c"
into an empty store yields exactly the pairs a↦"1" and b↦"2" — the
segment without "=" is skipped, whitespace is trimmed — and the
operation always succeeds (the embedded function is `Except.ok` on
every input). -/
theorem setCookiesFromString_example :
    SetCookiesFromString [] "a=1; b=2 ; c" = Except.ok [("a", "1"), ("b", "2")] ∧
    (∀ (m : List (String × String)) (s : String),
      ∃ m', SetCookiesFromString m s = Except.ok m') := by
  exact ⟨rfl, fun m s => ⟨_, rfl⟩⟩

/-- Claim C8: the page-selection expression "1-2,4" parses to the index
list [1, 2, 4] (the dash range expands inclusively, comma parts
concatenate in written order), and against a 5-episode collection the
download loop selects episodes 1, 2 and 4 in that order. -/
theorem pageRange_example_selection (e1 e2 e3 e4 e5 : EpisodeInfo) :
    parsePageRange "1-2,4" 5 = Except.ok [1, 2, 4] ∧
    selectEpisodes [e1, e2, e3, e4, e5] [1, 2, 4] = [e1, e2, e4] := by
  exact ⟨rfl, rfl⟩

/-- Claim C9: for a video with a non-empty page list, requesting
streams for a page number outside 1..len(pages) does not fail — the
first page's content id is used instead; only an empty page list makes
the per-page request itself error. -/
theorem getVideoStreamsForPage_fallback (v : VideoInfo) (pageNum : Int)
    (fetchByCID : String → Int → Except String (List StreamInfo)) :
    (∀ p ps, v.Pages = p :: ps →
      ¬ (0 < pageNum ∧ pageNum ≤ (v.Pages.length : Int)) →
      GetVideoStreamsForPage v pageNum fetchByCID = fetchByCID v.BVID p.CID) ∧
    (v.Pages = [] →
      GetVideoStreamsForPage v pageNum fetchByCID =
        Except.error "no pages found for video") := by
  constructor
  · intro p ps hps hrange
    unfold GetVideoStreamsForPage
    rw [hps] at hrange ⊢
    have hcond : (0 < pageNum && pageNum ≤ ((p :: ps).length : Int)) = false := by
      simp only [Bool.and_eq_false_iff, decide_eq_false_iff_not]
      by_cases h0 : 0 < pageNum
      · exact Or.inr (fun hle => hrange ⟨h0, hle⟩)
      · exact Or.inl h0
    simp only [hcond, Bool.false_eq_true, if_false]
  · intro hps
    unfold GetVideoStreamsForPage
    rw [hps]

/-- A one-page video used to witness the out-of-range fallback. -/
def v9 : VideoInfo :=
  { BVID := "BV9", AID := 9, Title := "W", Desc := "", Duration := 3, typ := "video",
    Episodes := [], Pages := [⟨555, "p1", "", 3, 1⟩] }

/-- A concrete stand-in for the stream fetch by content id. -/
def fetch9 (bvid : String) (cid : Int) : Except String (List StreamInfo) :=
  Except.ok [⟨80, "mp4", bvid ++ toString cid, "", "avc1", "mp4a", 0, "1920x1080"⟩]

/-- Witness for C9: page 99 of a one-page video falls back to the first
page's content id 555 instead of failing. -/
theorem getVideoStreamsForPage_fallback_witness :
    GetVideoStreamsForPage v9 99 fetch9 = fetch9 v9.BVID (555 : Int) :=
  (getVideoStreamsForPage_fallback v9 99 fetch9).1 ⟨555, "p1", "", 3, 1⟩ [] rfl (by decide)

lemma selectEpisodes_foldl_filter (es : List EpisodeInfo) (idxs : List Int) :
    ∀ acc : List EpisodeInfo,
      idxs.foldl (selectStep es) acc =
      (idxs.filter (fun i => 0 < i && i ≤ (es.length : Int))).foldl (selectStep es) acc := by
  induction idxs with
  | nil => intro acc; rfl
  | cons i rest ih =>
    intro acc
    rw [List.foldl_cons, List.filter_cons]
    by_cases hc : (0 < i && i ≤ (es.length : Int)) = true
    · rw [if_pos hc, List.foldl_cons]
      exact ih (selectStep es acc i)
    · rw [if_neg hc]
      have hstep : selectStep es acc i = acc := by
        unfold selectStep
        rw [if_neg hc]
      rw [hstep]
      exact ih acc

/-- Claim C10: the page-range parser never validates indices against
the collection size — its size argument is unused, so its result is
independent of that argument — and the download loop silently drops
every selected index outside 1..len(episodes): the selection equals the
selection of the in-range indices only. -/
theorem pageSelection_out_of_range_dropped :
    (∀ (s : String) (m1 m2 : Int), parsePageRange s m1 = parsePageRange s m2) ∧
    (∀ (es : List EpisodeInfo) (idxs : List Int),
      selectEpisodes es idxs =
        selectEpisodes es (idxs.filter (fun i => 0 < i && i ≤ (es.length : Int)))) := by
  constructor
  · intro s m1 m2
    rfl
  · intro es idxs
    exact selectEpisodes_foldl_filter es idxs []
